import Mathlib

/-!
Verification of the macro-manager core (recorder, recorded-macro playback,
execution controller, key injector, storage) against its specification.

The Python sources are shallowly embedded: dictionaries become structures
with `Option` fields for keys that may be absent, `time.time()` timestamps
and durations become rationals, the shared `threading.Event` cancellation
flag becomes a stream of booleans indexed by the order in which the code
reads it, and loops that wait on real time become fuel-indexed recursive
functions returning `none` when the fuel runs out (the code would still be
looping).
-/

/-- Model of one recorded action dictionary.  `RecordedMacro.run` and the
recorder only ever read the keys `type`, `key`, `duration` and `delay`
(each via `.get`, so each may be absent); the embedding keeps exactly those
fields, each optional. -/
structure ActionDict where
  type : Option String
  key : Option String
  duration : Option ℚ
  delay : Option ℚ
  deriving DecidableEq, Repr

/-- Action dict written by `MacroRecorder` for a quick tap. -/
def keypressAction (k : String) : ActionDict :=
  { type := some "keypress", key := some k, duration := none, delay := none }

/-- Action dict written by `MacroRecorder` for a held key. -/
def keyholdAction (k : String) (d : ℚ) : ActionDict :=
  { type := some "keyhold", key := some k, duration := some d, delay := none }

/-- Action dict written by `MacroRecorder` for a pause. -/
def sleepAction (d : ℚ) : ActionDict :=
  { type := some "sleep", key := none, duration := none, delay := some d }

/-- State of `macros/recorded_macro.py`'s `RecordedMacro` object: `name`,
`description` and `actions` from `__init__`, plus the `loop` flag
(initially `True`) and `loop_count` (initially `None`). -/
structure RecordedMacro where
  name : String
  description : String
  actions : List ActionDict
  loop : Bool
  loop_count : Option ℤ
  deriving DecidableEq, Repr

/-- `RecordedMacro.__init__(name, description, actions)`: stores the three
arguments and sets `loop = True`, `loop_count = None`. -/
def RecordedMacro.create (name description : String) (actions : List ActionDict) :
    RecordedMacro :=
  { name := name, description := description, actions := actions,
    loop := true, loop_count := none }

/-- `RecordedMacro.set_loop(loop, loop_count)`: keeps `loop_count` only when
`loop and loop_count is not None and loop_count > 0`, else stores `None`. -/
def RecordedMacro.set_loop (m : RecordedMacro) (loop : Bool) (loop_count : Option ℤ) :
    RecordedMacro :=
  { m with
    loop := loop,
    loop_count :=
      match loop, loop_count with
      | true, some n => if 0 < n then some n else none
      | _, _ => none }

/-- Dictionary produced by `RecordedMacro.to_dict`: all five keys are always
written, so none of the fields is optional here. -/
structure MacroDict where
  name : String
  description : String
  actions : List ActionDict
  loop : Bool
  loop_count : Option ℤ
  deriving DecidableEq, Repr

/-- `RecordedMacro.to_dict()`. -/
def RecordedMacro.to_dict (m : RecordedMacro) : MacroDict :=
  { name := m.name, description := m.description, actions := m.actions,
    loop := m.loop, loop_count := m.loop_count }

/-- A persisted record as `RecordedMacro.from_dict` receives it: any of the
keys it reads may be absent (`none`).  `loop_count` distinguishes an absent
key (`none`) from a stored JSON `null` (`some none`). -/
structure PersistedDict where
  name : Option String
  description : Option String
  actions : Option (List ActionDict)
  loop : Option Bool
  loop_count : Option (Option ℤ)
  deriving DecidableEq, Repr

/-- View of a `to_dict` result as the record `from_dict` would be fed. -/
def MacroDict.toPersisted (d : MacroDict) : PersistedDict :=
  { name := some d.name, description := some d.description,
    actions := some d.actions, loop := some d.loop,
    loop_count := some d.loop_count }

/-- `RecordedMacro.from_dict(data)`: `data["name"]` and `data["actions"]`
raise `KeyError` when absent (modelled as `Except.error`);
`description`, `loop` and `loop_count` fall back to their defaults; the
loop fields are installed through `set_loop`.  No field of any action
dictionary is inspected. -/
def RecordedMacro.from_dict (data : PersistedDict) : Except String RecordedMacro :=
  match data.name with
  | none => Except.error "KeyError: name"
  | some n =>
    match data.actions with
    | none => Except.error "KeyError: actions"
    | some acts =>
      let m := RecordedMacro.create n (data.description.getD "Custom recorded macro") acts
      Except.ok (m.set_loop (data.loop.getD true) (data.loop_count.getD none))

/-- A macro as the UI builds it: the constructor followed by any sequence of
`set_loop` calls. -/
def buildRecorded (name description : String) (actions : List ActionDict)
    (calls : List (Bool × Option ℤ)) : RecordedMacro :=
  calls.foldl (fun acc c => acc.set_loop c.1 c.2)
    (RecordedMacro.create name description actions)

/-- Invariant maintained by the constructor and `set_loop`: a stored
`loop_count` is positive and only present while `loop` is set. -/
def LoopFieldsOk (m : RecordedMacro) : Prop :=
  m.loop_count = none ∨ (m.loop = true ∧ ∃ k, m.loop_count = some k ∧ 0 < k)

theorem loopFieldsOk_create (n d : String) (acts : List ActionDict) :
    LoopFieldsOk (RecordedMacro.create n d acts) := Or.inl rfl

theorem loopFieldsOk_set_loop (m : RecordedMacro) (l : Bool) (c : Option ℤ) :
    LoopFieldsOk (m.set_loop l c) := by
  unfold LoopFieldsOk RecordedMacro.set_loop
  match l, c with
  | true, some n =>
    by_cases h : 0 < n
    · exact Or.inr ⟨rfl, n, by simp [h], h⟩
    · simp [h]
  | true, none => simp
  | false, some n => simp
  | false, none => simp

theorem loopFieldsOk_buildRecorded (n d : String) (acts : List ActionDict)
    (calls : List (Bool × Option ℤ)) : LoopFieldsOk (buildRecorded n d acts calls) := by
  unfold buildRecorded
  induction calls using List.reverseRecOn with
  | nil => exact loopFieldsOk_create n d acts
  | append_singleton xs c _ =>
    rw [List.foldl_append, List.foldl_cons, List.foldl_nil]
    exact loopFieldsOk_set_loop _ c.1 c.2

/-- Reapplying `set_loop` with a macro's own stored loop fields is the
identity whenever the stored fields satisfy the invariant. -/
theorem set_loop_self (m : RecordedMacro) (h : LoopFieldsOk m) :
    m.set_loop m.loop m.loop_count = m := by
  obtain ⟨nm, ds, as, lp, lc⟩ := m
  unfold RecordedMacro.set_loop
  rcases h with h | ⟨hl, k, hc, hk⟩
  · simp only at h
    subst h
    cases lp <;> simp
  · simp only at hl hc
    subst hl; subst hc
    simp [hk]

theorem from_dict_to_dict (m : RecordedMacro) (h : LoopFieldsOk m) :
    RecordedMacro.from_dict m.to_dict.toPersisted = Except.ok m := by
  simp only [RecordedMacro.from_dict, RecordedMacro.to_dict, MacroDict.toPersisted,
    Option.getD_some]
  rw [show RecordedMacro.create m.name m.description m.actions
      = { m with loop := true, loop_count := none } from rfl]
  have : ({ m with loop := true, loop_count := none } : RecordedMacro).set_loop
      m.loop m.loop_count = m.set_loop m.loop m.loop_count := by
    unfold RecordedMacro.set_loop
    rfl
  rw [this, set_loop_self m h]

/-- C1: persistence round-trip is lossless — for every `RecordedMacro`
built via the constructor followed by any sequence of `set_loop` calls,
`RecordedMacro.from_dict(m.to_dict())` reproduces `m` exactly: same name,
description, actions in order, loop flag and loop count. -/
theorem roundtrip_lossless (n d : String) (acts : List ActionDict)
    (calls : List (Bool × Option ℤ)) :
    RecordedMacro.from_dict (buildRecorded n d acts calls).to_dict.toPersisted
      = Except.ok (buildRecorded n d acts calls) :=
  from_dict_to_dict _ (loopFieldsOk_buildRecorded n d acts calls)

/-- Observable effect of one dispatched action in `RecordedMacro.run`:
`keypress` calls `press_key` with no duration, `keyhold` with
`action.get("duration", 0.1)`, `sleep` calls `safe_sleep` with
`action.get("delay", 1.0)`.  Any other tag only logs a warning, so it has
no effect (`actionEffect` returns `none`). -/
inductive Effect where
  | keyEff : Option String → Option ℚ → Effect
  | sleepEff : ℚ → Effect
  deriving DecidableEq, Repr

/-- Dispatch of one action dictionary inside `RecordedMacro.run`'s `for`
loop, following the `action.get("type")` comparison chain. -/
def actionEffect (a : ActionDict) : Option Effect :=
  match a.type with
  | some "keypress" => some (Effect.keyEff a.key none)
  | some "keyhold" => some (Effect.keyEff a.key (some (a.duration.getD (1 / 10))))
  | some "sleep" => some (Effect.sleepEff (a.delay.getD 1))
  | _ => none

/-- Effects of a whole action list when every action runs to completion. -/
def effectsOf (acts : List ActionDict) : List Effect :=
  acts.filterMap actionEffect

/-- One pass of `RecordedMacro.run`'s inner `for step, action ...` loop.
The `running.is_set()` check at the top of the body is read `flag r` for
the r-th read of the shared flag; a cleared flag makes `run` return at
once, so the pass ends with `false` and only the effects already emitted.
Each action's own polling of the same flag is subsumed by this check for
the monotone (set-then-cleared) flags playback actually sees. -/
def runActionsFrom (flag : ℕ → Bool) : List ActionDict → ℕ → List Effect × Bool
  | [], _ => ([], true)
  | a :: rest, r =>
    if flag r = false then ([], false)
    else
      let res := runActionsFrom flag rest (r + 1)
      ((actionEffect a).toList ++ res.1, res.2)

/-- The cancellation flag of a run that is never stopped. -/
def trueFlag : ℕ → Bool := fun _ => true

theorem effectsOf_cons (a : ActionDict) (l : List ActionDict) :
    effectsOf (a :: l) = (actionEffect a).toList ++ effectsOf l := by
  unfold effectsOf
  cases h : actionEffect a <;> simp [List.filterMap_cons, h]

theorem runActionsFrom_all_true (flag : ℕ → Bool) (acts : List ActionDict) (r : ℕ)
    (h : ∀ i, i < acts.length → flag (r + i) = true) :
    runActionsFrom flag acts r = (effectsOf acts, true) := by
  induction acts generalizing r with
  | nil => rfl
  | cons a rest ih =>
    have h0 : flag r = true := by simpa using h 0 (Nat.succ_pos _)
    have hrest : ∀ i, i < rest.length → flag (r + 1 + i) = true := by
      intro i hi
      have := h (i + 1) (by simpa using Nat.succ_lt_succ hi)
      simpa [Nat.add_assoc, Nat.add_comm 1 i] using this
    simp [runActionsFrom, h0, ih (r + 1) hrest, effectsOf_cons]

theorem runActionsFrom_trueFlag (acts : List ActionDict) (r : ℕ) :
    runActionsFrom trueFlag acts r = (effectsOf acts, true) :=
  runActionsFrom_all_true _ _ _ (fun _ _ => rfl)

theorem runActionsFrom_stops (flag : ℕ → Bool) (acts : List ActionDict) (r j : ℕ)
    (hj : j < acts.length) (hbefore : ∀ i, i < j → flag (r + i) = true)
    (hstop : flag (r + j) = false) :
    runActionsFrom flag acts r = (effectsOf (acts.take j), false) := by
  induction acts generalizing r j with
  | nil => exact absurd hj (by simp)
  | cons a rest ih =>
    cases j with
    | zero =>
      simp only [Nat.add_zero] at hstop
      simp [runActionsFrom, hstop, effectsOf]
    | succ j =>
      have h0 : flag r = true := by simpa using hbefore 0 (Nat.succ_pos _)
      have hbefore2 : ∀ i, i < j → flag (r + 1 + i) = true := by
        intro i hi
        have := hbefore (i + 1) (Nat.succ_lt_succ hi)
        simpa [Nat.add_assoc, Nat.add_comm 1 i] using this
      have hstop2 : flag (r + 1 + j) = false := by
        simpa [Nat.add_assoc, Nat.add_comm 1 j] using hstop
      simp [runActionsFrom, h0, ih (r + 1) j (by simpa using Nat.lt_of_succ_lt_succ hj)
        hbefore2 hstop2, effectsOf_cons]

/-- `MacroStorage.load_all_macros` over the already-parsed record of each
`.json` file: `load_macro` yields `none` when anything raises (then the
record is skipped), otherwise the macro is appended. -/
def load_all_macros (records : List PersistedDict) : List RecordedMacro :=
  records.filterMap (fun r => (RecordedMacro.from_dict r).toOption)

/-- Action list holding an unknown tag (`"jump"`) and a `keyhold` whose
duration is non-positive. -/
def badActionsList : List ActionDict :=
  [{ type := some "jump", key := none, duration := none, delay := none },
   { type := some "keyhold", key := some "w", duration := some (-1), delay := none }]

/-- Persisted record carrying `badActionsList`. -/
def badTagRecord : PersistedDict :=
  { name := some "bad", description := some "has an unknown tag",
    actions := some badActionsList, loop := some true, loop_count := some none }

/-- Persisted record whose required `name` key is missing, so
`from_dict` raises (`KeyError`) and the loader skips it. -/
def noNameRecord : PersistedDict :=
  { name := none, description := none, actions := some [], loop := none,
    loop_count := none }

/-- C2 (counterexample): a persisted record with an unknown action tag and
a non-positive `keyhold` duration is NOT rejected — `from_dict` accepts it
unchanged, and at playback the unknown action is silently skipped while
the invalid `keyhold` still executes.  No `MalformedMacro` error exists in
the code. -/
theorem unknown_tag_not_rejected :
    RecordedMacro.from_dict badTagRecord
      = Except.ok (RecordedMacro.create "bad" "has an unknown tag" badActionsList) ∧
    runActionsFrom trueFlag badActionsList 0
      = ([Effect.keyEff (some "w") (some (-1))], true) :=
  ⟨rfl, rfl⟩

theorem from_dict_ok_of_keys (r : PersistedDict) (n : String) (acts : List ActionDict)
    (hn : r.name = some n) (ha : r.actions = some acts) :
    ∃ m, RecordedMacro.from_dict r = Except.ok m ∧ m.actions = acts := by
  refine ⟨(RecordedMacro.create n (r.description.getD "Custom recorded macro") acts).set_loop
      (r.loop.getD true) (r.loop_count.getD none), ?_, ?_⟩
  · simp [RecordedMacro.from_dict, hn, ha]
  · simp [RecordedMacro.set_loop, RecordedMacro.create]

/-- C2 (amended): `from_dict` performs no validation of the action
entries — any record whose `name` and `actions` keys are present loads
successfully with its action list taken verbatim (unknown tags and
non-positive durations included); at playback an action with an unknown
type tag is skipped (a warning is logged) while the surrounding actions
still execute; and bulk loading omits exactly the records on which
`from_dict` itself raises (missing `name` or `actions` key), keeping the
rest. -/
theorem malformed_records_skipped
    (r : PersistedDict) (n : String) (acts : List ActionDict)
    (hn : r.name = some n) (ha : r.actions = some acts)
    (xs ys : List PersistedDict) (bad : PersistedDict)
    (hbad : (RecordedMacro.from_dict bad).isOk = false)
    (pre post : List ActionDict) (u : ActionDict) (hu : actionEffect u = none) :
    (∃ m, RecordedMacro.from_dict r = Except.ok m ∧ m.actions = acts) ∧
    load_all_macros (xs ++ bad :: ys) = load_all_macros xs ++ load_all_macros ys ∧
    runActionsFrom trueFlag (pre ++ u :: post) 0
      = (effectsOf pre ++ effectsOf post, true) := by
  refine ⟨from_dict_ok_of_keys r n acts hn ha, ?_, ?_⟩
  · have hopt : (RecordedMacro.from_dict bad).toOption = none := by
      cases h : RecordedMacro.from_dict bad
      · rfl
      · rw [h] at hbad
        simp [Except.isOk, Except.toBool] at hbad
    simp [load_all_macros, List.filterMap_append, List.filterMap_cons, hopt]
  · rw [runActionsFrom_trueFlag]
    simp [effectsOf, List.filterMap_append, List.filterMap_cons, hu]

/-- C2 (witness): the amended behavior at concrete inputs — `badTagRecord`
loads with its actions verbatim, a record missing `name` is dropped from a
bulk load that keeps its neighbor, and playback of a tap, an unknown
action and a pause emits only the tap and the pause. -/
theorem malformed_records_skipped_witness :
    (∃ m, RecordedMacro.from_dict badTagRecord = Except.ok m ∧
      m.actions = badActionsList) ∧
    load_all_macros ([badTagRecord] ++ noNameRecord :: []) =
      load_all_macros [badTagRecord] ++ load_all_macros [] ∧
    runActionsFrom trueFlag ([keypressAction "a"] ++
        { type := some "jump", key := none, duration := none, delay := none } ::
        [sleepAction 1] ) 0
      = (effectsOf [keypressAction "a"] ++ effectsOf [sleepAction 1], true) :=
  malformed_records_skipped badTagRecord "bad" badActionsList rfl rfl
    [badTagRecord] [] noNameRecord rfl
    [keypressAction "a"] [sleepAction 1]
    { type := some "jump", key := none, duration := none, delay := none } rfl

/-- `RecordedMacro.run`'s resolution of `max_iterations`: `1` when `loop`
is off (whatever `loop_count` holds), the stored positive count when
present, else `None` (infinite). -/
def maxIterations (loop : Bool) (loop_count : Option ℤ) : Option ℤ :=
  if loop = false then some 1
  else
    match loop_count with
    | some n => if 0 < n then some n else none
    | none => none

/-- The guard `max_iterations is not None and iteration > max_iterations`. -/
def exceedsMax (mIt : Option ℤ) (it : ℤ) : Bool :=
  match mIt with
  | some m => decide (m < it)
  | none => false

/-- The `while running.is_set():` loop of `RecordedMacro.run`.  One fuel
unit per pass of the while loop; the result is the number of complete
executions of the action list when `run` returns, `none` when the fuel is
exhausted (the code would still be looping).  Reads of the shared flag are
numbered: the `while` condition takes one read, then each action's check
one more (through `runActionsFrom`). -/
def runLoop (mIt : Option ℤ) (loop : Bool) (acts : List ActionDict) (flag : ℕ → Bool) :
    ℕ → ℤ → ℕ → ℕ → Option ℕ
  | 0, _, _, _ => none
  | fuel + 1, iteration, r, done =>
    if flag r = false then some done
    else
      let it := iteration + 1
      if exceedsMax mIt it then some done
      else if (runActionsFrom flag acts (r + 1)).2 = false then some done
      else if loop = false then some (done + 1)
      else runLoop mIt loop acts flag fuel it (r + 1 + acts.length) (done + 1)

/-- Number of complete executions of `m.actions` that `m.run` performs
(with `iteration`, the read counter and the completed count starting at
zero, as in the source). -/
def runIterationCount (m : RecordedMacro) (flag : ℕ → Bool) (fuel : ℕ) : Option ℕ :=
  runLoop (maxIterations m.loop m.loop_count) m.loop m.actions flag fuel 0 0 0

theorem runLoop_count_aux (n : ℤ) (acts : List ActionDict) (kk : ℕ) :
    ∀ (fuel : ℕ) (it : ℤ) (r done : ℕ), it = n - kk → kk + 1 ≤ fuel →
      runLoop (some n) true acts trueFlag fuel it r done = some (done + kk) := by
  induction kk with
  | zero =>
    intro fuel it r done hit hfuel
    obtain ⟨f, rfl⟩ : ∃ f, fuel = f + 1 := ⟨fuel - 1, by omega⟩
    have hx : exceedsMax (some n) (it + 1) = true := by
      simp only [exceedsMax, decide_eq_true_eq, hit]
      push_cast
      omega
    simp [runLoop, trueFlag, hx]
  | succ kk ih =>
    intro fuel it r done hit hfuel
    obtain ⟨f, rfl⟩ : ∃ f, fuel = f + 1 := ⟨fuel - 1, by omega⟩
    have hx : exceedsMax (some n) (it + 1) = false := by
      simp only [exceedsMax, decide_eq_false_iff_not, not_lt, hit]
      push_cast
      omega
    have hrec := ih f (it + 1) (r + 1 + acts.length) (done + 1)
      (by rw [hit]; push_cast; ring) (by omega)
    simp only [runLoop, trueFlag, Bool.true_eq_false, if_false, hx,
      runActionsFrom_trueFlag, ite_false, Bool.false_eq_true]
    rw [hrec]
    congr 1
    omega

theorem runLoop_infinite_none (acts : List ActionDict) :
    ∀ (fuel : ℕ) (it : ℤ) (r done : ℕ),
      runLoop none true acts trueFlag fuel it r done = none := by
  intro fuel
  induction fuel with
  | zero => intro it r done; rfl
  | succ f ih =>
    intro it r done
    simp only [runLoop, trueFlag, Bool.true_eq_false, if_false, exceedsMax,
      runActionsFrom_trueFlag, ite_false, Bool.false_eq_true]
    exact ih _ _ _

theorem runLoop_flag_cleared (acts : List ActionDict) (flag : ℕ → Bool) (K : ℕ) :
    ∀ (fuel : ℕ) (it : ℤ) (r0 done : ℕ), K + 1 ≤ fuel →
      (∀ i, i < K * (acts.length + 1) → flag (r0 + i) = true) →
      flag (r0 + K * (acts.length + 1)) = false →
      runLoop none true acts flag fuel it r0 done = some (done + K) := by
  induction K with
  | zero =>
    intro fuel it r0 done hfuel _ hstop
    obtain ⟨f, rfl⟩ : ∃ f, fuel = f + 1 := ⟨fuel - 1, by omega⟩
    simp only [Nat.zero_mul, Nat.add_zero] at hstop
    simp [runLoop, hstop]
  | succ K ih =>
    intro fuel it r0 done hfuel htrue hstop
    obtain ⟨f, rfl⟩ : ∃ f, fuel = f + 1 := ⟨fuel - 1, by omega⟩
    have hB : (K + 1) * (acts.length + 1) = K * (acts.length + 1) + (acts.length + 1) :=
      Nat.succ_mul _ _
    have h0 : flag r0 = true := by
      have := htrue 0 (by rw [hB]; omega)
      simpa using this
    have hwalk : runActionsFrom flag acts (r0 + 1) = (effectsOf acts, true) := by
      apply runActionsFrom_all_true
      intro i hi
      have := htrue (1 + i) (by rw [hB]; omega)
      simpa [Nat.add_assoc] using this
    have hrec := ih f (it + 1) (r0 + 1 + acts.length) (done + 1) (by omega)
      (by
        intro i hi
        have := htrue (acts.length + 1 + i) (by rw [hB]; omega)
        simpa [show r0 + 1 + acts.length + i = r0 + (acts.length + 1 + i) from by omega]
          using this)
      (by
        have heq : r0 + 1 + acts.length + K * (acts.length + 1)
            = r0 + (K + 1) * (acts.length + 1) := by rw [hB]; omega
        rw [heq]
        exact hstop)
    simp only [runLoop, h0, Bool.true_eq_false, if_false, exceedsMax, hwalk,
      ite_false, Bool.false_eq_true]
    rw [hrec]
    congr 1
    omega

/-- C3: loop policy bounds iterations exactly.  With `loop` off the action
list executes exactly once whatever `loop_count` holds; with `loop` on and
a stored count `n ≥ 1` it executes exactly `n` times absent cancellation;
with `loop` on and no count it never terminates while the flag stays set,
and stops with exactly `K` complete iterations when the flag is cleared
after the `K`-th one. -/
theorem loop_policy_bounds (nm ds : String) (acts : List ActionDict) (lc : Option ℤ)
    (n : ℤ) (hn : 0 < n) (K : ℕ) :
    (∀ fuel, 1 ≤ fuel →
      runIterationCount ⟨nm, ds, acts, false, lc⟩ trueFlag fuel = some 1) ∧
    (∀ fuel, n.toNat + 1 ≤ fuel →
      runIterationCount ⟨nm, ds, acts, true, some n⟩ trueFlag fuel = some n.toNat) ∧
    (∀ fuel, runIterationCount ⟨nm, ds, acts, true, none⟩ trueFlag fuel = none) ∧
    (∀ flag : ℕ → Bool, (∀ i, i < K * (acts.length + 1) → flag i = true) →
      flag (K * (acts.length + 1)) = false → ∀ fuel, K + 1 ≤ fuel →
      runIterationCount ⟨nm, ds, acts, true, none⟩ flag fuel = some K) := by
  refine ⟨?_, ?_, ?_, ?_⟩
  · intro fuel hfuel
    obtain ⟨f, rfl⟩ : ∃ f, fuel = f + 1 := ⟨fuel - 1, by omega⟩
    simp [runIterationCount, maxIterations, runLoop, trueFlag, exceedsMax,
      runActionsFrom_trueFlag]
  · intro fuel hfuel
    have := runLoop_count_aux n acts n.toNat fuel 0 0 0
      (by rw [Int.toNat_of_nonneg (le_of_lt hn)]; ring) hfuel
    simpa [runIterationCount, maxIterations, hn] using this
  · intro fuel
    simpa [runIterationCount, maxIterations] using runLoop_infinite_none acts fuel 0 0 0
  · intro flag htrue hstop fuel hfuel
    have := runLoop_flag_cleared acts flag K fuel 0 0 0 hfuel
      (by simpa using htrue) (by simpa using hstop)
    simpa [runIterationCount, maxIterations] using this

/-- C3 (witness): the three loop policies at concrete inputs — a one-action
macro with `loop` off runs once despite a stored count of 5; with a count
of 3 it runs three times; with no count it is still running after nine
passes, and stops with exactly two complete iterations when the flag is
cleared at the fifth read. -/
theorem loop_policy_bounds_witness :
    runIterationCount ⟨"w", "", [keypressAction "a"], false, some 5⟩ trueFlag 1 = some 1 ∧
    runIterationCount ⟨"w", "", [keypressAction "a"], true, some 3⟩ trueFlag 4 = some 3 ∧
    runIterationCount ⟨"w", "", [keypressAction "a"], true, none⟩ trueFlag 9 = none ∧
    runIterationCount ⟨"w", "", [keypressAction "a"], true, none⟩
      (fun i => decide (i < 4)) 3 = some 2 := by
  obtain ⟨h1, h2, h3, h4⟩ :=
    loop_policy_bounds "w" "" [keypressAction "a"] (some 5) 3 (by decide) 2
  exact ⟨h1 1 (by decide), h2 4 (by decide), h3 9,
    h4 (fun i => decide (i < 4)) (by decide) (by decide) 3 (by decide)⟩

/-- Round-half-to-even, the behavior of Python's builtin `round` on ties;
used through `round2` for `round(x, 2)`. -/
def roundHalfEven (q : ℚ) : ℤ :=
  if q - ⌊q⌋ < 1 / 2 then ⌊q⌋
  else if 1 / 2 < q - ⌊q⌋ then ⌊q⌋ + 1
  else if ⌊q⌋ % 2 = 0 then ⌊q⌋ else ⌊q⌋ + 1

/-- Python's `round(x, 2)`: rounding to two decimal places. -/
def round2 (q : ℚ) : ℚ := (roundHalfEven (q * 100) : ℚ) / 100

/-- `MacroRecorder.stop_key`. -/
def stop_key : String := "esc"

/-- Parse of a digit string as Python's `int` reads one: every character a
digit (a `ValueError` — `none` — otherwise, in particular on the empty
string). -/
def parseNatChars (cs : List Char) : Option ℕ :=
  if cs ≠ [] ∧ cs.all Char.isDigit then
    some (cs.foldl (fun a c => a * 10 + (c.toNat - 48)) 0)
  else none

/-- Python's `int(s)` on the tail of a key name: an optional sign followed
by digits. -/
def parseIntChars : List Char → Option ℤ
  | '-' :: rest => (parseNatChars rest).map (fun n => -(n : ℤ))
  | '+' :: rest => (parseNatChars rest).map (fun n => (n : ℤ))
  | cs => (parseNatChars cs).map (fun n => (n : ℤ))

/-- The function-key test both key handlers apply: the name starts with
`'f'`, has at most three characters, and its tail parses as an integer
between 1 and 12 (`int(key_name[1:])` raising — no function key —
otherwise). -/
def isFunctionKey (key_name : String) : Bool :=
  match key_name.data with
  | 'f' :: rest =>
    decide (rest.length ≤ 2) &&
      (match parseIntChars rest with
       | some fnum => decide (1 ≤ fnum ∧ fnum ≤ 12)
       | none => false)
  | _ => false

/-- State of a `MacroRecorder`: the recorded `actions`, the `recording`
flag, the session timestamps and the `pressed_keys` map (an association
list keyed by key name, as only one entry per name is ever inserted). -/
structure RecorderState where
  actions : List ActionDict
  recording : Bool
  start_time : ℚ
  last_action_time : ℚ
  pressed_keys : List (String × ℚ)
  deriving DecidableEq, Repr

/-- `MacroRecorder._on_key_press` at time `now` for an event whose resolved
name is `key_name`: function keys are ignored, the stop key only triggers
`stop_recording` (on a separate thread, modelled by `stopRecording`
below), a repeated down-edge of a tracked key is ignored, and otherwise
the press timestamp is tracked. -/
def onKeyPress (s : RecorderState) (key_name : String) (now : ℚ) : RecorderState :=
  if s.recording = false then s
  else if isFunctionKey key_name then s
  else if key_name = stop_key then s
  else if (s.pressed_keys.lookup key_name).isSome then s
  else { s with pressed_keys := s.pressed_keys ++ [(key_name, now)] }

/-- The delay-insertion step at the top of `_on_key_release`'s recording
branch: one `sleep` action is appended when strictly more than 0.1 s
passed since the last recorded action and at least one action exists. -/
def gapCoalesce (s : RecorderState) (now : ℚ) : List ActionDict :=
  if now - s.last_action_time > 1 / 10 ∧ s.actions ≠ [] then
    s.actions ++ [sleepAction (round2 (now - s.last_action_time))]
  else s.actions

/-- `MacroRecorder._on_key_release` at time `now`: ignore while not
recording; for a function key only drop any tracked press; ignore the
stop key; otherwise append the gap `sleep` (if any), classify the key as
`keyhold` (held strictly longer than 0.2 s) or `keypress`, untrack it, and
advance `last_action_time`. -/
def onKeyRelease (s : RecorderState) (key_name : String) (now : ℚ) : RecorderState :=
  if s.recording = false then s
  else if isFunctionKey key_name then
    { s with pressed_keys := s.pressed_keys.filter (fun p => p.1 != key_name) }
  else if key_name = stop_key then s
  else
    let acts := gapCoalesce s now
    match s.pressed_keys.lookup key_name with
    | some press_time =>
      let hold := now - press_time
      let classified :=
        if hold > 1 / 5 then keyholdAction key_name (round2 hold)
        else keypressAction key_name
      { s with
        actions := acts ++ [classified]
        pressed_keys := s.pressed_keys.filter (fun p => p.1 != key_name)
        last_action_time := now }
    | none =>
      { s with
        actions := acts ++ [keypressAction key_name]
        last_action_time := now }

/-- `MacroRecorder.stop_recording` at time `now`: when recording, clear the
flag, append one final `sleep` action if actions exist and strictly more
than 0.1 s passed since the last one, and return the action list. -/
def stopRecording (s : RecorderState) (now : ℚ) : RecorderState × List ActionDict :=
  if s.recording = false then (s, [])
  else
    let s1 := { s with recording := false }
    let s2 :=
      if s.actions ≠ [] ∧ now - s.last_action_time > 1 / 10 then
        { s1 with actions := s1.actions ++ [sleepAction (round2 (now - s.last_action_time))] }
      else s1
    (s2, s2.actions)

theorem lookup_filter_ne (l : List (String × ℚ)) (k : String) :
    (l.filter (fun p => p.1 != k)).lookup k = none := by
  induction l with
  | nil => rfl
  | cons p rest ih =>
    by_cases h : p.1 = k
    · simp [List.filter_cons, h, ih]
    · have hne : (p.1 != k) = true := by simp [h]
      have hbe : (k == p.1) = false := by
        simp only [beq_eq_false_iff_ne, ne_eq]
        exact fun hk => h hk.symm
      simp [List.filter_cons, hne, List.lookup, hbe, ih]


theorem onKeyRelease_tracked (s : RecorderState) (k : String) (now t : ℚ)
    (hrec : s.recording = true) (hfk : isFunctionKey k = false) (hsk : k ≠ stop_key)
    (htrack : List.lookup k s.pressed_keys = some t) :
    onKeyRelease s k now =
      { s with
        actions := gapCoalesce s now ++
          [if now - t > 1 / 5 then keyholdAction k (round2 (now - t))
           else keypressAction k]
        pressed_keys := s.pressed_keys.filter (fun p => p.1 != k)
        last_action_time := now } := by
  unfold onKeyRelease
  rw [hrec, if_neg (by simp), if_neg (by simp [hfk]), if_neg hsk, htrack]

/-- C4: for every key-up of a key tracked in the pressed map (necessarily
neither a function key nor the stop key, which the press handler never
tracks), the recorder classifies by held duration — elapsed time strictly
above 0.2 s appends a `keyhold` carrying the elapsed time rounded to two
decimals, otherwise a `keypress` for that key; the key is untracked. -/
theorem key_release_classification (s : RecorderState) (k : String) (now t : ℚ)
    (hrec : s.recording = true) (hfk : isFunctionKey k = false) (hsk : k ≠ stop_key)
    (htrack : List.lookup k s.pressed_keys = some t) :
    (now - t > 1 / 5 →
      (onKeyRelease s k now).actions
        = gapCoalesce s now ++ [keyholdAction k (round2 (now - t))]) ∧
    (¬ now - t > 1 / 5 →
      (onKeyRelease s k now).actions = gapCoalesce s now ++ [keypressAction k]) ∧
    List.lookup k (onKeyRelease s k now).pressed_keys = none := by
  rw [onKeyRelease_tracked s k now t hrec hfk hsk htrack]
  refine ⟨fun h => by rw [if_pos h], fun h => by rw [if_neg h], ?_⟩
  exact lookup_filter_ne _ _

/-- Recorder state with one recorded action, a key `"b"` pressed at time
1, and the last action recorded at time 1. -/
def witRecState : RecorderState :=
  { actions := [keypressAction "a"], recording := true, start_time := 0,
    last_action_time := 1, pressed_keys := [("b", 1)] }

/-- C4 (witness): releasing `"b"` at time 2 — held 1 s > 0.2 s — appends a
`keyhold` with the rounded duration and untracks the key. -/
theorem key_release_classification_witness :
    ((2 : ℚ) - 1 > 1 / 5) ∧
    (onKeyRelease witRecState "b" 2).actions
      = gapCoalesce witRecState 2 ++ [keyholdAction "b" (round2 (2 - 1))] ∧
    List.lookup "b" (onKeyRelease witRecState "b" 2).pressed_keys = none := by
  obtain ⟨h1, _, h3⟩ := key_release_classification witRecState "b" 2 1 rfl (by decide)
    (by decide) rfl
  exact ⟨by norm_num, h1 (by norm_num), h3⟩

/-- Recorder state whose last action was recorded at time 0, with one
action present and no tracked keys. -/
def boundaryState : RecorderState :=
  { actions := [keypressAction "a"], recording := true, start_time := 0,
    last_action_time := 0, pressed_keys := [] }

/-- C5 (counterexample): a key-up arriving when the elapsed time since the
last recorded action is exactly 0.1 s — at least the threshold, with an
action already present — produces NO `Sleep` action: the code's test is
strictly greater than 0.1, so the claim's "at least 0.1 seconds" fails at
the boundary. -/
theorem gap_at_threshold_no_sleep :
    ((1 : ℚ) / 10 - boundaryState.last_action_time ≥ 1 / 10) ∧
    boundaryState.actions ≠ [] ∧
    (onKeyRelease boundaryState "b" (1 / 10)).actions
      = [keypressAction "a", keypressAction "b"] := by
  refine ⟨by norm_num [boundaryState], by simp [boundaryState], ?_⟩
  have h := onKeyRelease_tracked boundaryState "b" (1 / 10)
  rw [show onKeyRelease boundaryState "b" (1 / 10) =
      { boundaryState with
        actions := gapCoalesce boundaryState (1 / 10) ++ [keypressAction "b"]
        last_action_time := 1 / 10 } from by
    unfold onKeyRelease
    rw [if_neg (by simp [boundaryState]), if_neg (by decide), if_neg (by decide)]
    rfl]
  rw [show gapCoalesce boundaryState (1 / 10) = boundaryState.actions from by
    unfold gapCoalesce
    rw [if_neg (by norm_num [boundaryState])]]
  rfl

/-- C5 (amended): gap coalescing inserts exactly one `Sleep` when the gap
is strictly greater than 0.1 s (not "at least"): on a key-up with such a
gap and at least one existing action, exactly one `sleep` action with the
rounded gap is appended before the key's classification action; on stop,
as the final action.  A gap not exceeding the threshold, or a gap before
the first action, produces no `Sleep`. -/
theorem gap_coalescing_strict (s : RecorderState) (now : ℚ) (k : String)
    (hrec : s.recording = true) (hfk : isFunctionKey k = false) (hsk : k ≠ stop_key) :
    (now - s.last_action_time > 1 / 10 ∧ s.actions ≠ [] →
      gapCoalesce s now
        = s.actions ++ [sleepAction (round2 (now - s.last_action_time))]) ∧
    (¬(now - s.last_action_time > 1 / 10 ∧ s.actions ≠ []) →
      gapCoalesce s now = s.actions) ∧
    (∃ a, (onKeyRelease s k now).actions = gapCoalesce s now ++ [a]) ∧
    (s.actions ≠ [] → now - s.last_action_time > 1 / 10 →
      (stopRecording s now).2
        = s.actions ++ [sleepAction (round2 (now - s.last_action_time))]) ∧
    (¬ now - s.last_action_time > 1 / 10 → (stopRecording s now).2 = s.actions) := by
  refine ⟨fun h => by unfold gapCoalesce; rw [if_pos h],
    fun h => by unfold gapCoalesce; rw [if_neg h], ?_, ?_, ?_⟩
  · cases hl : List.lookup k s.pressed_keys with
    | none =>
      refine ⟨keypressAction k, ?_⟩
      unfold onKeyRelease
      rw [hrec, if_neg (by simp), if_neg (by simp [hfk]), if_neg hsk, hl]
    | some t =>
      refine ⟨if now - t > 1 / 5 then keyholdAction k (round2 (now - t))
        else keypressAction k, ?_⟩
      rw [onKeyRelease_tracked s k now t hrec hfk hsk hl]
  · intro hne hgap
    unfold stopRecording
    rw [hrec, if_neg (by simp)]
    dsimp only
    rw [if_pos ⟨hne, hgap⟩]
  · intro hgap
    unfold stopRecording
    rw [hrec, if_neg (by simp)]
    dsimp only
    rw [if_neg (fun hcon => hgap hcon.2)]

/-- C5 (witness): with a 0.2 s gap (strictly above the threshold) one
rounded `sleep` is appended; at the 0.1 s boundary nothing is; stop after
a 0.2 s trailing gap appends the final `sleep`. -/
theorem gap_coalescing_strict_witness :
    gapCoalesce boundaryState (2 / 10)
      = boundaryState.actions
          ++ [sleepAction (round2 ((2 : ℚ) / 10 - boundaryState.last_action_time))] ∧
    gapCoalesce boundaryState (1 / 10) = boundaryState.actions ∧
    (∃ a, (onKeyRelease boundaryState "b" (2 / 10)).actions
      = gapCoalesce boundaryState (2 / 10) ++ [a]) ∧
    (stopRecording boundaryState (2 / 10)).2
      = boundaryState.actions
          ++ [sleepAction (round2 ((2 : ℚ) / 10 - boundaryState.last_action_time))] := by
  obtain ⟨ha, _, hc, hd, _⟩ := gap_coalescing_strict boundaryState (2 / 10) "b"
    rfl (by decide) (by decide)
  obtain ⟨_, hb, _, _, _⟩ := gap_coalescing_strict boundaryState (1 / 10) "z"
    rfl (by decide) (by decide)
  exact ⟨ha ⟨by norm_num [boundaryState], by simp [boundaryState]⟩,
    hb (by norm_num [boundaryState]), hc,
    hd (by simp [boundaryState]) (by norm_num [boundaryState])⟩

/-- A worker thread handle, with whether `is_alive()` holds. -/
structure ThreadHandle where
  alive : Bool
  deriving DecidableEq, Repr

/-- `MacroController` state: `current_macro`, `macro_thread`, the shared
`running` event and `game_window` (macro and window types abstract). -/
structure ControllerState (M W : Type) where
  currentMacro : Option M
  macro_thread : Option ThreadHandle
  running : Bool
  game_window : Option W
  deriving DecidableEq

/-- `MacroController.is_running`: a thread handle exists and is alive. -/
def ControllerState.is_running {M W : Type} (s : ControllerState M W) : Bool :=
  match s.macro_thread with
  | some t => t.alive
  | none => false

/-- `MacroController.start_macro`: raises `MacroExecutionError` when
`is_running()` — modelled as returning the untouched state with `some`
error text — and otherwise records the macro and window, sets the
`running` event and spawns the worker thread before returning. -/
def startMacro {M W : Type} (s : ControllerState M W) (m : M) (w : W) :
    ControllerState M W × Option String :=
  if s.is_running then (s, some "A macro is already running")
  else
    ({ s with
       currentMacro := some m
       game_window := some w
       running := true
       macro_thread := some { alive := true } }, none)

/-- `MacroController.stop_macro`: a no-op when nothing is running;
otherwise clears the `running` event, joins the thread (bounded wait) and
drops the current-macro and thread references. -/
def stopMacro {M W : Type} (s : ControllerState M W) : ControllerState M W :=
  if s.is_running = false then s
  else
    { s with
      running := false
      currentMacro := none
      macro_thread := none }

/-- How the worker body `_run_macro` ended: normal return (completion or
observed cancellation) or an exception caught by its `except` clause. -/
inductive RunOutcome where
  | completed
  | raised
  deriving DecidableEq, Repr

/-- Effect on the controller state of the worker body finishing: on every
outcome the `finally` clause clears the `running` event — and nothing
else — after which the thread itself terminates, so its handle is no
longer alive. -/
def workerCompletion {M W : Type} (s : ControllerState M W) (outcome : RunOutcome) :
    ControllerState M W :=
  match outcome with
  | _ =>
    { s with
      running := false
      macro_thread := s.macro_thread.map (fun _ => { alive := false }) }

/-- C6: single-flight start — calling `start_macro` while the worker
thread is alive returns the already-running error with the controller
state unchanged and `is_running()` still true; a successful start sets the
running event, records the macro, and spawns an alive worker thread
before returning. -/
theorem single_flight_start {M W : Type} (s : ControllerState M W) (m : M) (w : W) :
    (s.is_running = true →
      startMacro s m w = (s, some "A macro is already running") ∧
      (startMacro s m w).1.is_running = true) ∧
    (s.is_running = false →
      (startMacro s m w).2 = none ∧
      (startMacro s m w).1.running = true ∧
      (startMacro s m w).1.macro_thread = some { alive := true } ∧
      (startMacro s m w).1.currentMacro = some m ∧
      (startMacro s m w).1.is_running = true) := by
  constructor
  · intro h
    unfold startMacro
    rw [h]
    exact ⟨rfl, h⟩
  · intro h
    unfold startMacro
    rw [h]
    exact ⟨rfl, rfl, rfl, rfl, rfl⟩

/-- Controller state mid-run: macro 7 current, worker alive. -/
def midRunState : ControllerState ℕ ℕ :=
  { currentMacro := some 7, macro_thread := some { alive := true },
    running := true, game_window := some 0 }

/-- Idle controller state. -/
def idleState : ControllerState ℕ ℕ :=
  { currentMacro := none, macro_thread := none, running := false,
    game_window := none }

/-- C6 (witness): starting on a mid-run state errors and changes nothing;
starting on the idle state spawns the worker with the running event set. -/
theorem single_flight_start_witness :
    (startMacro midRunState 3 0 = (midRunState, some "A macro is already running") ∧
      (startMacro midRunState 3 0).1.is_running = true) ∧
    ((startMacro idleState 3 0).2 = none ∧
      (startMacro idleState 3 0).1.running = true ∧
      (startMacro idleState 3 0).1.macro_thread = some { alive := true } ∧
      (startMacro idleState 3 0).1.currentMacro = some 3 ∧
      (startMacro idleState 3 0).1.is_running = true) := by
  exact ⟨(single_flight_start midRunState 3 0).1 rfl,
    (single_flight_start idleState 3 0).2 rfl⟩

/-- C7 (counterexample): worker completion does NOT clear the controller's
current-macro reference — after the worker body finishes (either outcome)
`current_macro` is still `some 7` on a concrete mid-run state; only the
running flag is cleared. -/
theorem worker_completion_keeps_macro_ref :
    (workerCompletion midRunState RunOutcome.completed).currentMacro = some 7 ∧
    (workerCompletion midRunState RunOutcome.raised).currentMacro = some 7 ∧
    (workerCompletion midRunState RunOutcome.completed).running = false :=
  ⟨rfl, rfl, rfl⟩

/-- C7 (amended): whenever the worker body finishes — normal completion,
observed cancellation, or an exception — the `finally` clause clears the
running flag and the thread terminates, so `is_running()` is false and a
new `start_macro` succeeds; the current-macro reference, however, is left
unchanged by worker completion (it is dropped only by `stop_macro`). -/
theorem worker_completion_idle {M W : Type} (s : ControllerState M W)
    (o : RunOutcome) (m : M) (w : W) :
    (workerCompletion s o).running = false ∧
    (workerCompletion s o).is_running = false ∧
    (workerCompletion s o).currentMacro = s.currentMacro ∧
    (startMacro (workerCompletion s o) m w).2 = none := by
  cases ht : s.macro_thread <;>
    simp [workerCompletion, ControllerState.is_running, startMacro, ht]

/-- A key event emitted by the injector primitives `direct_keys.press_key`
and `direct_keys.release_key`. -/
inductive KeyEvent where
  | pressEv
  | releaseEv
  deriving DecidableEq, Repr

/-- How the duration branch of `send_key_to_window` exited: cancellation
observed at a poll, duration fully elapsed, or an exception raised by the
loop body and re-raised after the `except` handler released the key. -/
inductive HoldExit where
  | cancelled
  | elapsed
  | raised
  deriving DecidableEq, Repr

/-- The `while time.time() - start_time < duration:` hold loop of
`send_key_to_window`.  Poll `k` happens at elapsed time `k / 100` s — one
`time.sleep(0.01)`, 10 ms, separates consecutive polls.  At each poll a
cleared flag releases the key and returns; `err k` models an exception
from the loop body after poll `k`, answered by the `except` handler's
release and re-raise; when the elapsed time reaches the duration the loop
ends and the key is released.  Returns the emitted events, the exit kind
and the exit poll index; `none` when the fuel runs out. -/
def holdGo (d : ℚ) (flag err : ℕ → Bool) :
    ℕ → ℕ → List KeyEvent → Option (List KeyEvent × HoldExit × ℕ)
  | 0, _, _ => none
  | fuel + 1, k, evs =>
    if (k : ℚ) / 100 < d then
      if flag k = false then
        some (evs ++ [KeyEvent.releaseEv], HoldExit.cancelled, k)
      else if err k then
        some (evs ++ [KeyEvent.releaseEv], HoldExit.raised, k)
      else holdGo d flag err fuel (k + 1) evs
    else some (evs ++ [KeyEvent.releaseEv], HoldExit.elapsed, k)

/-- The duration branch of `send_key_to_window`:
`direct_keys.press_key(scan_code)` then the hold loop. -/
def sendKeyHold (d : ℚ) (flag err : ℕ → Bool) (fuel : ℕ) :
    Option (List KeyEvent × HoldExit × ℕ) :=
  holdGo d flag err fuel 0 [KeyEvent.pressEv]

theorem holdGo_cancelled (d : ℚ) (flag err : ℕ → Bool) (K : ℕ)
    (hK : flag K = false) (hlt : (K : ℚ) / 100 < d) :
    ∀ (fuel k : ℕ) (evs : List KeyEvent), k ≤ K → K - k < fuel →
      (∀ j, k ≤ j → j < K → flag j = true ∧ err j = false) →
      holdGo d flag err fuel k evs
        = some (evs ++ [KeyEvent.releaseEv], HoldExit.cancelled, K) := by
  intro fuel
  induction fuel with
  | zero => intro k evs _ h; omega
  | succ f ih =>
    intro k evs hkK hfuel hgood
    have hkd : (k : ℚ) / 100 < d := by
      apply lt_of_le_of_lt _ hlt
      apply div_le_div_of_nonneg_right _ (by norm_num)
      exact_mod_cast hkK
    rcases Nat.lt_or_ge k K with hlt2 | hge
    · obtain ⟨hfl, her⟩ := hgood k le_rfl hlt2
      simp only [holdGo, if_pos hkd, hfl, Bool.true_eq_false, if_false, her,
        Bool.false_eq_true]
      exact ih (k + 1) evs (by omega) (by omega)
        (fun j hj1 hj2 => hgood j (by omega) hj2)
    · have hkK2 : k = K := le_antisymm hkK hge
      subst hkK2
      simp [holdGo, if_pos hkd, hK]

theorem holdGo_events (d : ℚ) (flag err : ℕ → Bool) :
    ∀ (fuel k : ℕ) (evs : List KeyEvent) (res : List KeyEvent × HoldExit × ℕ),
      holdGo d flag err fuel k evs = some res →
      res.1 = evs ++ [KeyEvent.releaseEv] := by
  intro fuel
  induction fuel with
  | zero => intro k evs res h; exact absurd h (by simp [holdGo])
  | succ f ih =>
    intro k evs res h
    simp only [holdGo] at h
    split at h
    · split at h
      · cases h; rfl
      · split at h
        · cases h; rfl
        · exact ih (k + 1) evs res h
    · cases h; rfl

/-- C8: cancellation during a `KeyHold` is prompt — the hold loop polls
the cancellation flag every 10 ms (poll `k` at `k/100` s); when the flag
is observed cleared at poll `K` (set at every earlier poll, no exception)
while time remains, the key is released and the call returns right at
that poll, at `K/100` s, strictly before the requested duration; and in
the iteration walk of `RecordedMacro.run`, once a cleared flag is
observed no further action executes — only the actions before that point
have run. -/
theorem keyhold_cancellation_prompt (d : ℚ) (flag err : ℕ → Bool) (K : ℕ)
    (hbefore : ∀ j, j < K → flag j = true ∧ err j = false)
    (hK : flag K = false) (hlt : (K : ℚ) / 100 < d) :
    (∀ fuel, K < fuel →
      sendKeyHold d flag err fuel
        = some ([KeyEvent.pressEv, KeyEvent.releaseEv], HoldExit.cancelled, K)) ∧
    (∀ (flag2 : ℕ → Bool) (acts : List ActionDict) (r j : ℕ),
      j < acts.length → (∀ i, i < j → flag2 (r + i) = true) →
      flag2 (r + j) = false →
      runActionsFrom flag2 acts r = (effectsOf (acts.take j), false)) := by
  constructor
  · intro fuel hfuel
    exact holdGo_cancelled d flag err K hK hlt fuel 0 [KeyEvent.pressEv]
      (Nat.zero_le _) (by omega) (fun j _ hj => hbefore j hj)
  · exact fun flag2 acts r j h1 h2 h3 => runActionsFrom_stops flag2 acts r j h1 h2 h3

/-- C8 (witness): the spec's own scenario — a 10 s hold cancelled at the
fifth poll (50 ms) releases the key at 50 ms, and an iteration whose flag
clears after its first action runs only that action. -/
theorem keyhold_cancellation_prompt_witness :
    sendKeyHold 10 (fun n => decide (n < 5)) (fun _ => false) 6
      = some ([KeyEvent.pressEv, KeyEvent.releaseEv], HoldExit.cancelled, 5) ∧
    runActionsFrom (fun n => decide (n < 1))
        [keypressAction "a", keyholdAction "w" 10] 0
      = (effectsOf [keypressAction "a"], false) := by
  obtain ⟨h1, h2⟩ := keyhold_cancellation_prompt 10 (fun n => decide (n < 5))
    (fun _ => false) 5 (by decide) (by decide) (by norm_num)
  exact ⟨h1 6 (by decide),
    h2 (fun n => decide (n < 1)) [keypressAction "a", keyholdAction "w" 10] 0 1
      (by decide) (by decide) (by decide)⟩

/-- C10: no stuck keys — for every hold with a positive duration, whatever
poll outcomes and exceptions occur, a finished call has emitted exactly
one press followed by one release: the key is released on all three exit
paths (cancellation mid-hold, duration elapsed, exception while
holding). -/
theorem no_stuck_keys (d : ℚ) (flag err : ℕ → Bool) (fuel : ℕ)
    (res : List KeyEvent × HoldExit × ℕ) (hd : 0 < d)
    (hres : sendKeyHold d flag err fuel = some res) :
    res.1 = [KeyEvent.pressEv, KeyEvent.releaseEv] :=
  holdGo_events d flag err fuel 0 [KeyEvent.pressEv] res hres

theorem holdGo_elapsed (d : ℚ) (flag err : ℕ → Bool) (K : ℕ)
    (hKd : ¬ (K : ℚ) / 100 < d) :
    ∀ (fuel k : ℕ) (evs : List KeyEvent), k ≤ K → K - k < fuel →
      (∀ j, k ≤ j → j < K → flag j = true ∧ err j = false ∧ (j : ℚ) / 100 < d) →
      holdGo d flag err fuel k evs
        = some (evs ++ [KeyEvent.releaseEv], HoldExit.elapsed, K) := by
  intro fuel
  induction fuel with
  | zero => intro k evs _ h; omega
  | succ f ih =>
    intro k evs hkK hfuel hgood
    rcases Nat.lt_or_ge k K with hlt2 | hge
    · obtain ⟨hfl, her, hjd⟩ := hgood k le_rfl hlt2
      simp only [holdGo, if_pos hjd, hfl, Bool.true_eq_false, if_false, her,
        Bool.false_eq_true]
      exact ih (k + 1) evs (by omega) (by omega)
        (fun j hj1 hj2 => hgood j (by omega) hj2)
    · have hkK2 : k = K := le_antisymm hkK hge
      subst hkK2
      simp [holdGo, if_neg hKd]

theorem holdGo_raised (d : ℚ) (flag err : ℕ → Bool) (K : ℕ)
    (hKd : (K : ℚ) / 100 < d) (hfl : flag K = true) (her : err K = true) :
    ∀ (fuel k : ℕ) (evs : List KeyEvent), k ≤ K → K - k < fuel →
      (∀ j, k ≤ j → j < K → flag j = true ∧ err j = false) →
      holdGo d flag err fuel k evs
        = some (evs ++ [KeyEvent.releaseEv], HoldExit.raised, K) := by
  intro fuel
  induction fuel with
  | zero => intro k evs _ h; omega
  | succ f ih =>
    intro k evs hkK hfuel hgood
    have hkd : (k : ℚ) / 100 < d := by
      apply lt_of_le_of_lt _ hKd
      apply div_le_div_of_nonneg_right _ (by norm_num)
      exact_mod_cast hkK
    rcases Nat.lt_or_ge k K with hlt2 | hge
    · obtain ⟨hfl2, her2⟩ := hgood k le_rfl hlt2
      simp only [holdGo, if_pos hkd, hfl2, Bool.true_eq_false, if_false, her2,
        Bool.false_eq_true]
      exact ih (k + 1) evs (by omega) (by omega)
        (fun j hj1 hj2 => hgood j (by omega) hj2)
    · have hkK2 : k = K := le_antisymm hkK hge
      subst hkK2
      simp [holdGo, if_pos hKd, hfl, her]

/-- C10 (witness): the three exit paths at concrete inputs — a 0.03 s hold
running to completion, a 1 s hold cancelled at the second poll, and a 1 s
hold whose loop body raises at the second poll — each finish having
emitted exactly press then release. -/
theorem no_stuck_keys_witness :
    (∃ res, sendKeyHold (3 / 100) trueFlag (fun _ => false) 4 = some res ∧
      res.1 = [KeyEvent.pressEv, KeyEvent.releaseEv]) ∧
    (∃ res, sendKeyHold 1 (fun n => decide (n < 1)) (fun _ => false) 2 = some res ∧
      res.1 = [KeyEvent.pressEv, KeyEvent.releaseEv]) ∧
    (∃ res, sendKeyHold 1 trueFlag (fun n => decide (1 ≤ n)) 2 = some res ∧
      res.1 = [KeyEvent.pressEv, KeyEvent.releaseEv]) := by
  have h1 : sendKeyHold (3 / 100) trueFlag (fun _ => false) 4
      = some ([KeyEvent.pressEv, KeyEvent.releaseEv], HoldExit.elapsed, 3) := by
    apply holdGo_elapsed (3 / 100) trueFlag (fun _ => false) 3 (by norm_num) 4 0
      [KeyEvent.pressEv] (by omega) (by omega)
    intro j _ hj
    refine ⟨rfl, rfl, ?_⟩
    rw [div_lt_div_iff_of_pos_right (by norm_num)]
    exact_mod_cast hj
  have h2 : sendKeyHold 1 (fun n => decide (n < 1)) (fun _ => false) 2
      = some ([KeyEvent.pressEv, KeyEvent.releaseEv], HoldExit.cancelled, 1) := by
    apply holdGo_cancelled 1 (fun n => decide (n < 1)) (fun _ => false) 1 (by decide)
      (by norm_num) 2 0 [KeyEvent.pressEv] (by omega) (by omega)
    intro j _ hj
    interval_cases j
    exact ⟨rfl, rfl⟩
  have h3 : sendKeyHold 1 trueFlag (fun n => decide (1 ≤ n)) 2
      = some ([KeyEvent.pressEv, KeyEvent.releaseEv], HoldExit.raised, 1) := by
    apply holdGo_raised 1 trueFlag (fun n => decide (1 ≤ n)) 1 (by norm_num) rfl
      (by decide) 2 0 [KeyEvent.pressEv] (by omega) (by omega)
    intro j _ hj
    interval_cases j
    exact ⟨rfl, rfl⟩
  exact ⟨⟨_, h1, no_stuck_keys _ _ _ _ _ (by norm_num) h1⟩,
    ⟨_, h2, no_stuck_keys _ _ _ _ _ (by norm_num) h2⟩,
    ⟨_, h3, no_stuck_keys _ _ _ _ _ (by norm_num) h3⟩⟩

/-- The per-character step of `_make_safe_filename`: keep `c` when
`c.isalnum() or c in (' ', '-', '_')`, else replace it with an
underscore (ASCII alphanumerics, as macro names are ASCII). -/
def pySafeChar (c : Char) : Char :=
  if c.isAlphanum ∨ c = ' ' ∨ c = '-' ∨ c = '_' then c else '_'

/-- One step of `str.split()` read right-to-left: the accumulator is the
word currently being built and the finished words to the right. -/
def splitWSAux (c : Char) (acc : List Char × List (List Char)) :
    List Char × List (List Char) :=
  if c.isWhitespace then
    if acc.1 = [] then acc else ([], acc.1 :: acc.2)
  else (c :: acc.1, acc.2)

/-- Python's `str.split()` (no argument): maximal runs of non-whitespace
characters, empties dropped. -/
def splitWS (cs : List Char) : List (List Char) :=
  let r := cs.foldr splitWSAux ([], [])
  if r.1 = [] then r.2 else r.1 :: r.2

/-- Python's `"_".join(...)` over character-list words. -/
def joinUnderscore : List (List Char) → List Char
  | [] => []
  | [w] => w
  | w :: ws => w ++ '_' :: joinUnderscore ws

/-- `MacroStorage._make_safe_filename(name)`: replace unsafe characters by
underscores, collapse whitespace runs to single underscores via
`"_".join(name.split())`, and lowercase the result. -/
def make_safe_filename (name : String) : String :=
  let safe := name.data.map pySafeChar
  String.mk ((joinUnderscore (splitWS safe)).map Char.toLower)

/-- The file a macro name is stored under: `f"{safe_name}.json"`. -/
def saveFileName (n : String) : String := make_safe_filename n ++ ".json"

/-- The storage directory as an association of filename to stored
dictionary.  `MacroStorage.save_macro` writes `macro.to_dict()` to
`<safe name>.json`, overwriting any file already at that path. -/
def saveMacro (store : List (String × MacroDict)) (m : RecordedMacro) :
    List (String × MacroDict) :=
  store.filter (fun p => p.1 != saveFileName m.name)
    ++ [(saveFileName m.name, m.to_dict)]

/-- `MacroStorage.macro_exists(name)`: a file named after the macro
exists. -/
def macro_exists (store : List (String × MacroDict)) (n : String) : Bool :=
  store.any (fun p => p.1 == saveFileName n)

/-- `get_all_macro_names` as the save dialog consumes it: the stored
`name` field of every record on disk. -/
def get_all_names (store : List (String × MacroDict)) : List String :=
  store.map (fun p => p.2.name)

/-- The save dialog's duplicate check, `if name in existing_macros`. -/
def dialogDuplicateCheck (n : String) (existing : List String) : Bool :=
  existing.contains n

/-- Macro recorded under the name `"Test"`. -/
def macroTestUpper : RecordedMacro := RecordedMacro.create "Test" "first" []

/-- Macro recorded later under the name `"test"`. -/
def macroTestLower : RecordedMacro := RecordedMacro.create "test" "second" []

/-- C9 (counterexample): two names differing only in letter case are NOT
distinct in storage — `_make_safe_filename` lowercases, so `"Test"` and
`"test"` map to the same file; the dialog's case-sensitive check does not
fire for `"test"` against stored `"Test"`, and saving the new recording
replaces the stored record (silent overwrite). -/
theorem case_collision_overwrites :
    make_safe_filename "Test" = make_safe_filename "test" ∧
    dialogDuplicateCheck "test" (get_all_names (saveMacro [] macroTestUpper)) = false ∧
    saveMacro (saveMacro [] macroTestUpper) macroTestLower
      = [(saveFileName "test", macroTestLower.to_dict)] :=
  ⟨rfl, rfl, rfl⟩

theorem filter_ne_filter_eq (l : List (String × MacroDict)) (x : String) :
    (l.filter (fun p => p.1 != x)).filter (fun p => p.1 == x) = [] := by
  induction l with
  | nil => rfl
  | cons p rest ih =>
    by_cases h : p.1 = x
    · simp [List.filter_cons, h, ih]
    · simp [List.filter_cons, h, ih]

/-- C9 (amended): the dialog's already-exists check compares display names
case-sensitively and exactly, but storage filenames are lowercased, so
names that collide under `_make_safe_filename` — in particular names
differing only in letter case — share one file: after saving the second
macro, the only record at that path is the second macro's (the first is
silently overwritten), and `macro_exists` already answers true for the
second name once the first is saved. -/
theorem name_identity_storage (n : String) (names : List String)
    (store : List (String × MacroDict)) (m1 m2 : RecordedMacro)
    (hcol : saveFileName m1.name = saveFileName m2.name) :
    (dialogDuplicateCheck n names = true ↔ n ∈ names) ∧
    macro_exists (saveMacro store m1) m2.name = true ∧
    (saveMacro (saveMacro store m1) m2).filter
        (fun p => p.1 == saveFileName m1.name)
      = [(saveFileName m2.name, m2.to_dict)] := by
  refine ⟨by simp [dialogDuplicateCheck], ?_, ?_⟩
  · simp [macro_exists, saveMacro, hcol]
  · rw [hcol]
    simp only [saveMacro, List.filter_append, filter_ne_filter_eq]
    simp [List.filter_cons]

/-- C9 (witness): the amended statement at the `"Test"`/`"test"` pair —
exact-match dialog check, `macro_exists` true for the case-variant, and
the overwrite of the shared file. -/
theorem name_identity_storage_witness :
    (dialogDuplicateCheck "test" ["Test"] = true ↔ "test" ∈ ["Test"]) ∧
    macro_exists (saveMacro [] macroTestUpper) macroTestLower.name = true ∧
    (saveMacro (saveMacro [] macroTestUpper) macroTestLower).filter
        (fun p => p.1 == saveFileName macroTestUpper.name)
      = [(saveFileName macroTestLower.name, macroTestLower.to_dict)] :=
  name_identity_storage "test" ["Test"] [] macroTestUpper macroTestLower rfl
